import Mathlib

/-!
Verification of the kiwi WebSocket server core against its specification.

The Go sources are shallowly embedded: machine integers become `Nat`
(with `% 2^w` at the points where Go truncates), byte slices become
`List Nat` whose elements are below 256, `io.Reader` becomes a list of
chunks (each `Read` call returns a prefix of the first chunk), and
fallible functions return `Option`/`Except`.
-/

namespace Kiwi

/-! ### Byte-stream model

A Go `io.Reader` is modelled as a list of chunks.  One `Read` call with a
buffer of size `n` returns up to `n` bytes taken from the front of the
first chunk; a read on an exhausted stream reports an error (EOF).  -/

def Stream' : Type := List (List Nat)

/-- One `Read(buf)` call with `len(buf) = n`: returns the bytes read, the
remaining stream, and the error flag. -/
def readStream (s : Stream') (n : Nat) : List Nat × Stream' × Bool :=
  match s with
  | [] => ([], [], true)
  | c :: rest => (c.take n, if c.length ≤ n then rest else c.drop n :: rest, false)

def flattenStream (s : Stream') : List Nat :=
  match s with
  | [] => []
  | c :: rest => c ++ flattenStream rest

def streamFuel (s : Stream') : Nat :=
  match s with
  | [] => 1
  | c :: rest => c.length + 1 + streamFuel rest

/-! ### Frame codec (frame.go) -/

def OpcodeContinue : Nat := 0x0
def OpcodeText : Nat := 0x1
def OpcodeBinary : Nat := 0x2
def OpcodeClose : Nat := 0x8
def OpcodePing : Nat := 0x9
def OpcodePong : Nat := 0xA

structure Frame where
  FIN : Nat
  RSV1 : Nat
  RSV2 : Nat
  RSV3 : Nat
  Opcode : Nat
  MASK : Nat
  PayloadLen : Nat
  MaskingKey : Nat
  PayloadData : List Nat
deriving DecidableEq, Repr

inductive FrameErr where
  | deformedFirstTwoBytes
  | deformedOpcode
  | deformedPayloadLength
  | deformedExtendedPayloadLength
  | frameTooLarge
  | deformedMaskingKey
  | deformedPayloadData
deriving DecidableEq, Repr

def CheckOpcode (code : Nat) : Bool :=
  code == OpcodeContinue ||
    code == OpcodeText ||
    code == OpcodeBinary ||
    code == OpcodeClose ||
    code == OpcodePing ||
    code == OpcodePing ||
    code == OpcodePong

/-- Modelled from the spec: `math/rand`'s generator (not part of this
repository) is deterministic given its seed; `randUint32 seed` stands for
the first `Uint32()` drawn from `rand.New(rand.NewSource(seed))`. -/
def MakeMaskingKey (randUint32 : Nat → Nat) : List Nat :=
  let mk := randUint32 35 % 2 ^ 32
  [(mk >>> 24) % 256, (mk >>> 16) % 256, (mk >>> 8) % 256, mk % 256]

def MaskData (data maskingKey : List Nat) : List Nat :=
  data.mapIdx fun i b => b ^^^ maskingKey.getD (i % 4) 0

/-- `Frame.ToBytes` from frame.go.  `randUint32` models the masking-key
PRNG.  Returns `none` on the (unreachable) too-large branch. -/
def Frame.ToBytes (randUint32 : Nat → Nat) (f : Frame) (mask : Bool) :
    Option (List Nat) :=
  let byts0 := ((f.FIN <<< 7) % 256) ||| ((f.RSV1 <<< 6) % 256) |||
    ((f.RSV2 <<< 5) % 256) ||| ((f.RSV3 <<< 4) % 256) ||| f.Opcode
  let pLength := f.PayloadData.length
  let hdr : Option (Nat × List Nat) :=
    if pLength ≤ 125 then
      some (pLength, [])
    else if pLength ≤ 65535 then
      some (126, [(pLength >>> 8) % 256, pLength % 256])
    else if pLength % 2 ^ 64 ≤ 2 ^ 64 - 1 then
      some (127, [(pLength >>> 56) % 256, (pLength >>> 48) % 256,
        (pLength >>> 40) % 256, (pLength >>> 32) % 256,
        (pLength >>> 24) % 256, (pLength >>> 16) % 256,
        (pLength >>> 8) % 256, pLength % 256])
    else
      none
  match hdr with
  | none => none
  | some (pLen, extPLen) =>
    let mASK := if mask then 1 else f.MASK
    let byts1 := ((mASK <<< 7) % 256) ||| (pLen % 256)
    let mkb := if mask then MakeMaskingKey randUint32 else []
    some ([byts0, byts1] ++ extPLen ++ mkb ++ f.PayloadData)

/-- The loop body of `ReadBytesAsMath`: repeatedly `Read` into a 512-byte
buffer, appending the bytes read, until the running total equals `size`
or the stream errors.  `fuel` dominates the number of iterations; it is
instantiated with `streamFuel s`, which always suffices. -/
def rbLoop : Nat → Stream' → Nat → Nat → List Nat → Option (List Nat × Stream')
  | 0, _, _, _, _ => none
  | fuel + 1, s, size, n, byts =>
    let r := readStream s 512
    if 0 < r.1.length then
      let n' := n + r.1.length
      let byts' := byts ++ r.1
      if n' = size then some (byts', r.2.1)
      else if r.2.2 then none
      else rbLoop fuel r.2.1 size n' byts'
    else if r.2.2 then none
    else rbLoop fuel r.2.1 size n byts

def ReadBytesAsMath (s : Stream') (size : Nat) : Option (List Nat × Stream') :=
  rbLoop (streamFuel s) s size 0 []

/-- `Frame.FromBufReader` from frame.go, decoding one frame from the
stream; on success it returns the frame and the remaining stream. -/
def Frame.FromBufReader (s : Stream') (maxPayloadLen : Nat) :
    Except FrameErr (Frame × Stream') :=
  let r2 := readStream s 2
  if r2.2.2 || r2.1.length != 2 then .error .deformedFirstTwoBytes else
  let b0 := r2.1.getD 0 0
  let b1 := r2.1.getD 1 0
  let s1 := r2.2.1
  let fIN := b0 >>> 7
  let rSV1 := ((b0 <<< 1) % 256) >>> 7
  let rSV2 := ((b0 <<< 2) % 256) >>> 7
  let rSV3 := ((b0 <<< 3) % 256) >>> 7
  let opcode := b0 &&& 0xF
  if !CheckOpcode opcode then .error .deformedOpcode else
  let mASK := b1 >>> 7
  let pLen := b1 &&& 0x7F
  let ext : Except FrameErr (Nat × Stream') :=
    if pLen ≤ 125 then .ok (pLen, s1)
    else if pLen = 126 then
      let r := readStream s1 2
      if r.2.2 || r.1.length != 2 then .error .deformedExtendedPayloadLength
      else .ok ((r.1.getD 0 0 <<< 8) ||| r.1.getD 1 0, r.2.1)
    else if pLen = 127 then
      let r := readStream s1 8
      if r.2.2 || r.1.length != 8 then .error .deformedExtendedPayloadLength
      else .ok ((r.1.getD 0 0 <<< 56) ||| (r.1.getD 1 0 <<< 48) |||
        (r.1.getD 2 0 <<< 40) ||| (r.1.getD 3 0 <<< 32) |||
        (r.1.getD 4 0 <<< 24) ||| (r.1.getD 5 0 <<< 16) |||
        (r.1.getD 6 0 <<< 8) ||| r.1.getD 7 0, r.2.1)
    else .error .deformedPayloadLength
  match ext with
  | .error e => .error e
  | .ok (payloadLen, s2) =>
    if payloadLen > maxPayloadLen then .error .frameTooLarge else
    let mk : Except FrameErr (List Nat × Nat × Stream') :=
      if mASK = 1 then
        let r := readStream s2 4
        if r.2.2 || r.1.length != 4 then .error .deformedMaskingKey
        else .ok (r.1, (r.1.getD 0 0 <<< 24) ||| (r.1.getD 1 0 <<< 16) |||
          (r.1.getD 2 0 <<< 8) ||| r.1.getD 3 0, r.2.1)
      else .ok ([], 0, s2)
    match mk with
    | .error e => .error e
    | .ok (mkb, maskingKey, s3) =>
      if 0 < pLen then
        match ReadBytesAsMath s3 payloadLen with
        | none => .error .deformedPayloadData
        | some (pld, s4) =>
          .ok (⟨fIN, rSV1, rSV2, rSV3, opcode, mASK, payloadLen, maskingKey,
            if mASK = 1 then MaskData pld mkb else pld⟩, s4)
      else
        .ok (⟨fIN, rSV1, rSV2, rSV3, opcode, mASK, payloadLen, maskingKey, []⟩, s3)

/-! ### UTF-8 validator and converters (utf8.go part of part_001) -/

def Unicode2utf8 (u : Nat) : Option (List Nat) :=
  if u ≤ 0x7F then
    some [u % 256]
  else if 0x80 ≤ u ∧ u ≤ 0x7FF then
    some [(u >>> 6 ||| 0xC0) % 256, (u &&& 0x3F ||| 0x80) % 256]
  else if 0x800 ≤ u ∧ u ≤ 0xFFFF then
    some [(u >>> 12 ||| 0xE0) % 256, ((u &&& 0xFC0) >>> 6 ||| 0x80) % 256,
      (u &&& 0x3F ||| 0x80) % 256]
  else if 0x10000 ≤ u ∧ u ≤ 0x10FFFF then
    some [(u >>> 18 ||| 0xF0) % 256, ((u &&& 0x3F000) >>> 12 ||| 0x80) % 256,
      ((u &&& 0xFC0) >>> 6 ||| 0x80) % 256, (u &&& 0x3F ||| 0x80) % 256]
  else
    none

def Utf82unicode (u8 : List Nat) : Option Nat :=
  let u8l := u8.length
  if u8l = 0 then none else
  let b1 := u8.getD 0 0
  if b1 ≤ 0x7F then
    some b1
  else if b1 >>> 5 = 0x6 ∧ u8l = 2 then
    some ((b1 &&& 0x1F) <<< 6 ||| (u8.getD 1 0 &&& 0x3F))
  else if b1 >>> 4 = 0xE ∧ u8l = 3 then
    some ((b1 &&& 0xF) <<< 12 ||| (u8.getD 1 0 &&& 0x3F) <<< 6 |||
      (u8.getD 2 0 &&& 0x3F))
  else if b1 >>> 3 = 0x1E ∧ u8l = 4 then
    some ((b1 &&& 0x7) <<< 18 ||| (u8.getD 1 0 &&& 0x3F) <<< 12 |||
      (u8.getD 2 0 &&& 0x3F) <<< 6 ||| (u8.getD 3 0 &&& 0x3F))
  else
    none

/-- The loop of `IsIntactUtf8`, consuming one encoded form per step. -/
def intactLoop : Nat → List Nat → Bool
  | 0, l => l.isEmpty
  | _ + 1, [] => true
  | fuel + 1, b1 :: rest =>
    if b1 ≤ 0x7F then intactLoop fuel rest
    else if b1 >>> 5 = 0x6 then
      match rest with
      | b2 :: rest2 =>
        if b2 &&& 0xC0 = 0x80 ∧ (b1 > 0xC0 ∨ b2 > 0x80) then intactLoop fuel rest2
        else false
      | [] => false
    else if b1 >>> 4 = 0xE then
      match rest with
      | b2 :: b3 :: rest3 =>
        let tu := (b1 &&& 0xF) <<< 12 ||| (b2 &&& 0x3F) <<< 6 ||| (b3 &&& 0x3F)
        if 0x800 ≤ tu ∧ tu ≤ 0xFFFF ∧ ¬(0xD800 ≤ tu ∧ tu ≤ 0xDFFF) then
          intactLoop fuel rest3
        else false
      | _ => false
    else if b1 >>> 3 = 0x1E then
      match rest with
      | b2 :: b3 :: b4 :: rest4 =>
        if b1 &&& 0x7 ≤ 0x4 ∧ b2 &&& 0xC0 = 0x80 ∧ b2 &&& 0x3F ≤ 0xF ∧
            b3 &&& 0xC0 = 0x80 ∧ b4 &&& 0xC0 = 0x80 then
          intactLoop fuel rest4
        else false
      | _ => false
    else false

def IsIntactUtf8 (u8 : List Nat) : Bool :=
  intactLoop u8.length u8

/-! ### Accept key (handshake_misc.go part of part_001)

`crypto/sha1` and `encoding/base64` are Go standard library, not part of
this repository, so they are modelled from the spec: SHA-1 per FIPS 180
and standard base64 with padding, which is what the spec's phrase
`base64(SHA1(k + GUID))` denotes. -/

def keySuffixGUID : String := "258EAFA5-E914-47DA-95CA-C5AB0DC85B11"

def strBytes (s : String) : List Nat :=
  s.data.map Char.toNat

def rotl32 (x n : Nat) : Nat :=
  ((x <<< n) ||| (x >>> (32 - n))) % 2 ^ 32

def be32 (w : Nat) : List Nat :=
  [(w >>> 24) % 256, (w >>> 16) % 256, (w >>> 8) % 256, w % 256]

def be64 (w : Nat) : List Nat :=
  [(w >>> 56) % 256, (w >>> 48) % 256, (w >>> 40) % 256, (w >>> 32) % 256,
    (w >>> 24) % 256, (w >>> 16) % 256, (w >>> 8) % 256, w % 256]

/-- Modelled from the spec: SHA-1 padding (append 0x80, zeros to 56 mod
64, then the bit length big-endian). -/
def sha1Pad (msg : List Nat) : List Nat :=
  let len := msg.length
  let z := (64 + 56 - ((len + 1) % 64)) % 64
  msg ++ [0x80] ++ List.replicate z 0 ++ be64 (len * 8)

def bytesToWords : List Nat → List Nat
  | b0 :: b1 :: b2 :: b3 :: rest =>
    ((b0 <<< 24) ||| (b1 <<< 16) ||| (b2 <<< 8) ||| b3) :: bytesToWords rest
  | _ => []

def sha1Extend (w : List Nat) : Nat → List Nat
  | 0 => w
  | k + 1 =>
    let n := w.length
    sha1Extend (w ++ [rotl32 (w.getD (n - 3) 0 ^^^ w.getD (n - 8) 0 ^^^
      w.getD (n - 14) 0 ^^^ w.getD (n - 16) 0) 1]) k

def sha1F (i b c d : Nat) : Nat :=
  if i < 20 then (b &&& c) ||| ((b ^^^ 0xFFFFFFFF) &&& d)
  else if i < 40 then b ^^^ c ^^^ d
  else if i < 60 then (b &&& c) ||| (b &&& d) ||| (c &&& d)
  else b ^^^ c ^^^ d

def sha1K (i : Nat) : Nat :=
  if i < 20 then 0x5A827999
  else if i < 40 then 0x6ED9EBA1
  else if i < 60 then 0x8F1BBCDC
  else 0xCA62C1D6

def sha1Rounds : Nat → Nat → List Nat → Nat × Nat × Nat × Nat × Nat →
    Nat × Nat × Nat × Nat × Nat
  | _, _, [], st => st
  | 0, _, _, st => st
  | fuel + 1, i, w :: ws, (a, b, c, d, e) =>
    let temp := (rotl32 a 5 + sha1F i b c d + e + sha1K i + w) % 2 ^ 32
    sha1Rounds fuel (i + 1) ws (temp, a, rotl32 b 30, c, d)

def sha1Block (h : Nat × Nat × Nat × Nat × Nat) (block : List Nat) :
    Nat × Nat × Nat × Nat × Nat :=
  let w := sha1Extend (bytesToWords block) 64
  let (h0, h1, h2, h3, h4) := h
  let (a, b, c, d, e) := sha1Rounds 80 0 w (h0, h1, h2, h3, h4)
  ((h0 + a) % 2 ^ 32, (h1 + b) % 2 ^ 32, (h2 + c) % 2 ^ 32,
    (h3 + d) % 2 ^ 32, (h4 + e) % 2 ^ 32)

def sha1Blocks : Nat → (Nat × Nat × Nat × Nat × Nat) → List Nat →
    Nat × Nat × Nat × Nat × Nat
  | 0, h, _ => h
  | _ + 1, h, [] => h
  | fuel + 1, h, l => sha1Blocks fuel (sha1Block h (l.take 64)) (l.drop 64)

def sha1 (msg : List Nat) : List Nat :=
  let padded := sha1Pad msg
  let (h0, h1, h2, h3, h4) := sha1Blocks (padded.length)
    (0x67452301, 0xEFCDAB89, 0x98BADCFE, 0x10325476, 0xC3D2E1F0) padded
  be32 h0 ++ be32 h1 ++ be32 h2 ++ be32 h3 ++ be32 h4

def base64Chars : List Char :=
  ("ABCDEFGHIJKLMNOPQRSTUVWXYZabcdefghijklmnopqrstuvwxyz0123456789+/").data

def b64c (i : Nat) : Char :=
  base64Chars.getD i ('A')

def base64Encode : List Nat → List Char
  | [] => []
  | [b0] => [b64c (b0 >>> 2), b64c ((b0 &&& 3) <<< 4), '=', '=']
  | [b0, b1] =>
    [b64c (b0 >>> 2), b64c (((b0 &&& 3) <<< 4) ||| (b1 >>> 4)),
      b64c ((b1 &&& 15) <<< 2), '=']
  | b0 :: b1 :: b2 :: rest =>
    b64c (b0 >>> 2) :: b64c (((b0 &&& 3) <<< 4) ||| (b1 >>> 4)) ::
      b64c (((b1 &&& 15) <<< 2) ||| (b2 >>> 6)) :: b64c (b2 &&& 63) ::
      base64Encode rest

/-- `MakeAcceptKey` from part_001: base64 of the SHA-1 of the request key
concatenated with the fixed GUID. -/
def MakeAcceptKey (reqKey : List Nat) : List Char :=
  base64Encode (sha1 (reqKey ++ strBytes keySuffixGUID))

/-! ### Header (header.go)

Go's `Header` is `map[string][]string` populated by
`h[key] = append(h[key], val)`; the embedding keeps the key/value pairs
in arrival order, so a present key always carries at least one value,
exactly as in every map reachable through the parser. -/

abbrev Header : Type := List (String × String)

def stringOfBytes (l : List Nat) : String :=
  ⟨l.map Char.ofNat⟩

inductive HeaderErr where
  | deformed (line : List Nat)
  | sliceBounds
deriving DecidableEq

/-- Splits off one line up to and including the newline byte 10, like
`bytes.Buffer.ReadBytes`. `none` means no newline before EOF. -/
def readLine (bs : List Nat) : Option (List Nat × List Nat) :=
  match bs.findIdx? (fun b => b == 10) with
  | none => none
  | some i => some (bs.take (i + 1), bs.drop (i + 1))

def headerLoop : Nat → List Nat → Bool → Header → Except HeaderErr Header
  | 0, _, _, acc => .ok acc
  | fuel + 1, bs, isCRLF, acc =>
    match readLine bs with
    | none => .ok acc
    | some (line, rest) =>
      match line.findIdx? (fun b => b == 58) with
      | none => .error (.deformed line)
      | some kvSep =>
        let hi := line.length - (if isCRLF then 2 else 1)
        if kvSep + 2 > hi then .error .sliceBounds
        else
          let val := stringOfBytes ((line.drop (kvSep + 2)).take (hi - (kvSep + 2)))
          let key := stringOfBytes (line.take kvSep)
          headerLoop fuel rest isCRLF (acc ++ [(key, val)])

/-- `Header.FromBytes` from header.go.  The value slice
`line[kvSep+2 : len(line)-1]` (or `-2` under CRLF) panics in Go when its
lower bound exceeds its upper bound; the embedding returns the
distinguished `sliceBounds` error there. -/
def Header.FromBytes (bs : List Nat) (isCRLF : Bool) : Except HeaderErr Header :=
  headerLoop (bs.length + 1) bs isCRLF []

def Header.Get (h : Header) (key : String) : List String :=
  (h.filter (fun kv => kv.1 == key)).map (fun kv => kv.2)

def Header.GetOne (h : Header) (key : String) : String :=
  (Header.Get h key).headD ("")

def Header.HasKey (h : Header) (key : String) : Bool :=
  h.any (fun kv => kv.1 == key)

def Header.HasKeyAndValEqual (h : Header) (key val : String) : Bool :=
  match Header.Get h key with
  | [] => false
  | v :: _ => v == val

/-- `strings.Contains`: `sub` occurs as a contiguous substring of `s`. -/
def containsSubstr (s sub : String) : Bool :=
  (List.range (s.data.length + 1)).any fun i => sub.data.isPrefixOf (s.data.drop i)

def Header.HasKeyAndValContains (h : Header) (key val : String) : Bool :=
  match Header.Get h key with
  | [] => false
  | v :: _ => containsSubstr v val

/-! ### Default handshake validation (conn.go) -/

structure HandshakeRequest where
  ProtoVer : String
  URLPath : String
  header : Header

/-- `DefaultServerHandshakeCheck` from conn.go.  The open-handler router
is abstracted to the list of paths it has handlers for; the result is
the `(errCode, err)` pair, with `none` for a nil error. -/
def DefaultServerHandshakeCheck (hsReq : HandshakeRequest) (router : List String) :
    Nat × Option String :=
  if hsReq.ProtoVer ≠ "1.1" then
    (400, some ("invalid http proto ver"))
  else if ¬(Header.HasKey hsReq.header ("Host") = true) then
    (400, some ("missing header 'Host'"))
  else if ¬(Header.HasKeyAndValContains hsReq.header ("Connection") ("Upgrade") = true) then
    (400, some ("missing or invalid header 'Connection'"))
  else if ¬(Header.HasKeyAndValEqual hsReq.header ("Upgrade") ("websocket") = true) then
    (400, some ("missing or invalid header 'Upgrade'"))
  else if ¬(Header.HasKeyAndValEqual hsReq.header ("Sec-WebSocket-Version") ("13") = true) then
    (400, some ("missing or invalid header 'Sec-WebSocket-Version'"))
  else if ¬(Header.HasKey hsReq.header ("Sec-WebSocket-Version") = true) then
    (400, some ("missing header 'Sec-WebSocket-Version'"))
  else if Header.GetOne hsReq.header ("Sec-WebSocket-Version") ≠ "13" then
    (400, some ("not supported version"))
  else if ¬(Header.HasKey hsReq.header ("Sec-WebSocket-Key") = true) then
    (400, some ("missing header 'Sec-WebSocket-Key"))
  else if ¬(router.contains hsReq.URLPath = true) then
    (404, some ("service not found for: " ++ hsReq.URLPath))
  else
    (0, none)

/-! ### Connection pool (server.go part of part_002) -/

structure ConnPool where
  p : List Nat
  idx : Nat
  count : Nat
deriving DecidableEq, Repr

def NewConnPool : ConnPool :=
  ⟨[], 0, 0⟩

/-- `ConnPool.Add`: increment the uint64 counter, assign it as the new
connection's ID, store it in the map, bump the live count.  Returns the
assigned ID alongside the new state. -/
def ConnPool.Add (cp : ConnPool) : ConnPool × Nat :=
  let idx := (cp.idx + 1) % 2 ^ 64
  (⟨cp.p.insert idx, idx, (cp.count + 1) % 2 ^ 64⟩, idx)

/-- `ConnPool.Del`: delete the connection's ID from the map (a no-op when
absent) and decrement the uint64 live count (which wraps at zero). -/
def ConnPool.Del (cp : ConnPool) (id : Nat) : ConnPool :=
  ⟨cp.p.erase id, cp.idx, (cp.count + (2 ^ 64 - 1)) % 2 ^ 64⟩

def ConnPool.Count (cp : ConnPool) : Nat :=
  cp.count

inductive PoolOp where
  | add
  | del (id : Nat)
deriving DecidableEq, Repr

/-- Runs a sequence of pool operations, also returning the IDs assigned
by the `Add` calls, in order. -/
def runPool (cp : ConnPool) : List PoolOp → ConnPool × List Nat
  | [] => (cp, [])
  | .add :: ops =>
    let r := cp.Add
    let rest := runPool r.1 ops
    (rest.1, r.2 :: rest.2)
  | .del id :: ops =>
    runPool (cp.Del id) ops

/-- Every `Del` in the sequence targets an ID currently in the map. -/
def delsPresent (cp : ConnPool) : List PoolOp → Bool
  | [] => true
  | .add :: ops => delsPresent cp.Add.1 ops
  | .del id :: ops => cp.p.contains id && delsPresent (cp.Del id) ops

def countAdds : List PoolOp → Nat
  | [] => 0
  | .add :: ops => countAdds ops + 1
  | .del _ :: ops => countAdds ops

/-- `MakeMaskingKey` viewed inside a program state that carries an
ambient entropy value: the Go function consults no ambient entropy — it
builds a fresh `rand.NewSource(35)` on every call — so the state passes
through unchanged and contributes nothing to the key. -/
def MakeMaskingKeyInState (randUint32 : Nat → Nat) (entropy : Nat) :
    List Nat × Nat :=
  (MakeMaskingKey randUint32, entropy)

/-- The first header byte as assembled by `Frame.ToBytes`. -/
def frameByte0 (f : Frame) : Nat :=
  ((f.FIN <<< 7) % 256) ||| ((f.RSV1 <<< 6) % 256) |||
    ((f.RSV2 <<< 5) % 256) ||| ((f.RSV3 <<< 4) % 256) ||| f.Opcode

/-! ## Theorems -/

/-! ### Bit-arithmetic toolkit -/

theorem lor_eq_add_of_mod_eq_zero {x y k : Nat} (hx : x % 2 ^ k = 0) (hy : y < 2 ^ k) :
    x ||| y = x + y := by
  have hdvd : 2 ^ k ∣ x := Nat.dvd_of_mod_eq_zero hx
  obtain ⟨a, ha⟩ := hdvd
  subst ha
  rw [← Nat.mul_add_lt_is_or hy a]

theorem and_127_eq (n : Nat) : n &&& 127 = n % 128 := by
  have h : (127 : Nat) = 2 ^ 7 - 1 := by norm_num
  rw [h, Nat.and_pow_two_sub_one_eq_mod]

theorem and_15_eq (n : Nat) : n &&& 15 = n % 16 := by
  have h : (15 : Nat) = 2 ^ 4 - 1 := by norm_num
  rw [h, Nat.and_pow_two_sub_one_eq_mod]

theorem and_63_eq (n : Nat) : n &&& 63 = n % 64 := by
  have h : (63 : Nat) = 2 ^ 6 - 1 := by norm_num
  rw [h, Nat.and_pow_two_sub_one_eq_mod]

/-- C1: the claim says `Frame.ToBytes` with `mask=true` XORs the payload
with the generated key before emission, so that decoding returns the
original payload.  The code violates this: it appends the masking key
and then appends the payload unmasked; the decoder, seeing MASK=1, XORs
the cleartext with the key, garbling it.  Concretely, with a PRNG model
whose seed-35 draw is 0x01010101 and payload "hello", the emitted bytes
carry the cleartext `68 65 6C 6C 6F`, and decoding yields
`69 64 6D 6D 6E ≠ 68 65 6C 6C 6F`. -/
theorem toBytes_mask_skips_xor :
    Frame.ToBytes (fun _ => 0x01010101)
        ⟨1, 0, 0, 0, 1, 0, 5, 0, [104, 101, 108, 108, 111]⟩ true =
      some [129, 133, 1, 1, 1, 1, 104, 101, 108, 108, 111] ∧
    Frame.FromBufReader [[129, 133, 1, 1, 1, 1, 104, 101, 108, 108, 111]] 125 =
      .ok (⟨1, 0, 0, 0, 1, 1, 5, 0x01010101, [105, 100, 109, 109, 110]⟩, []) ∧
    [105, 100, 109, 109, 110] ≠ [104, 101, 108, 108, 111] :=
  ⟨rfl, rfl, by decide⟩

/-- C3: the claim says every 4-byte form whose leading payload is at
most 4 and whose continuation bytes begin `10xxxxxx` is accepted.  The
code additionally requires the first continuation byte's low six bits to
be at most 0xF, so it rejects `F0 9F 98 84` — the encoding of U+1F604
produced by this repository's own `Unicode2utf8` — and `F0 90 80 80`
(U+10000), both of which satisfy the claimed conditions. -/
theorem isIntactUtf8_rejects_valid_four_byte :
    Unicode2utf8 0x1F604 = some [0xF0, 0x9F, 0x98, 0x84] ∧
    IsIntactUtf8 [0xF0, 0x9F, 0x98, 0x84] = false ∧
    IsIntactUtf8 [0xF0, 0x90, 0x80, 0x80] = false :=
  ⟨rfl, rfl, rfl⟩

set_option maxRecDepth 8192 in
/-- C5: `MakeAcceptKey k` is the standard base64 encoding of the SHA-1
digest of `k` concatenated with the GUID literal, and on the concrete
input "M/A=" it produces "5oBJ6efz0YUYE2VFXcCfYKTBqYY=". -/
theorem makeAcceptKey_spec :
    (∀ k : List Nat,
      MakeAcceptKey k = base64Encode (sha1 (k ++ strBytes keySuffixGUID))) ∧
    String.mk (MakeAcceptKey (strBytes ("M/A="))) =
      ("5oBJ6efz0YUYE2VFXcCfYKTBqYY=") :=
  ⟨fun _ => rfl, by decide⟩

/-- C9: every two calls of `MakeMaskingKey` return the same 4-byte
sequence.  The function passes the literal seed 35 to the PRNG, so for
every PRNG model and any two ambient entropy states the produced key is
the same deterministic constant — the big-endian bytes of the seed-35
draw — and the entropy state is not even consulted. -/
theorem makeMaskingKey_constant :
    ∀ randUint32 : Nat → Nat, ∀ e1 e2 : Nat,
      (MakeMaskingKeyInState randUint32 e1).1 =
        (MakeMaskingKeyInState randUint32 e2).1 ∧
      (MakeMaskingKeyInState randUint32 e1).1 =
        [((randUint32 35 % 2 ^ 32) >>> 24) % 256,
          ((randUint32 35 % 2 ^ 32) >>> 16) % 256,
          ((randUint32 35 % 2 ^ 32) >>> 8) % 256,
          randUint32 35 % 2 ^ 32 % 256] ∧
      (MakeMaskingKeyInState randUint32 e1).2 = e1 :=
  fun _ _ _ => ⟨rfl, rfl, rfl⟩

/-- C10: `Header.FromBytes` hits a slice-bounds violation (a Go panic)
whenever a line's first colon is followed by fewer than two bytes before
the line terminator: on "Host:\n" with isCRLF=false and on "Host:\r\n"
with isCRLF=true the value slice's lower bound exceeds its upper bound,
while a well-formed line still parses. -/
theorem header_fromBytes_slice_bounds :
    Header.FromBytes (strBytes ("Host:\n")) false = .error .sliceBounds ∧
    Header.FromBytes (strBytes ("Host:\r\n")) true = .error .sliceBounds ∧
    Header.FromBytes (strBytes ("Host: x\n")) false = .ok [(("Host"), ("x"))] :=
  ⟨rfl, rfl, rfl⟩

/-- C8 counterexample: the claim asserts `Count()` equals the map's
cardinality after every operation, including when `Del` is applied to a
connection whose ID is not in the map.  After `Add`, `Del`, `Del` on the
same connection (ID 1), the uint64 count has wrapped to 2^64 − 1 while
the map is empty. -/
theorem connPool_count_counterexample :
    (runPool NewConnPool [.add, .del 1, .del 1]).1.Count ≠
      (runPool NewConnPool [.add, .del 1, .del 1]).1.p.length := by
  decide

/-- C6 counterexample: the claim asserts the payload read fails only
when the stream ends before the payload length is met, and that a
zero payload length reads nothing.  Both fail: a frame `81 01` with
payload byte `41` decodes fine when the chunk ends at the frame
boundary, but the same frame followed by one extra byte in the same
chunk makes the 512-byte read overshoot the running total, consuming
both bytes and erroring although enough bytes were available; and a
frame whose 7+16 length encoding declares zero (`81 7E 00 00`) calls
the payload read with size 0, which consumes the next byte and errors
instead of reading nothing. -/
theorem frame_payload_read_counterexample :
    Frame.FromBufReader [[129, 1, 65]] 125 =
      .ok (⟨1, 0, 0, 0, 1, 0, 1, 0, [65]⟩, []) ∧
    Frame.FromBufReader [[129, 1, 65, 66]] 125 = .error .deformedPayloadData ∧
    Frame.FromBufReader [[129, 126, 0, 0, 65]] 125 = .error .deformedPayloadData :=
  ⟨rfl, rfl, rfl⟩

/-! ### More bit lemmas used by the round-trip proofs -/

theorem lor_eq_add (k x y : Nat) (hx : x % 2 ^ k = 0) (hy : y < 2 ^ k) :
    x ||| y = x + y := lor_eq_add_of_mod_eq_zero hx hy

theorem lor_eq_add' (k x y : Nat) (hx : x < 2 ^ k) (hy : y % 2 ^ k = 0) :
    x ||| y = y + x := by
  rw [Nat.or_comm]; exact lor_eq_add_of_mod_eq_zero hy hx

theorem shiftLeft_or_mod (k q r : Nat) (hr : r < 2 ^ k) :
    q <<< k ||| r = q * 2 ^ k + r := by
  rw [Nat.shiftLeft_eq]
  exact lor_eq_add k _ r (Nat.mul_mod_left q (2 ^ k)) hr

theorem and_31_eq (n : Nat) : n &&& 31 = n % 32 := by
  have h : (31 : Nat) = 2 ^ 5 - 1 := by norm_num
  rw [h, Nat.and_pow_two_sub_one_eq_mod]

theorem and_7_eq (n : Nat) : n &&& 7 = n % 8 := by
  have h : (7 : Nat) = 2 ^ 3 - 1 := by norm_num
  rw [h, Nat.and_pow_two_sub_one_eq_mod]

theorem and_shiftLeft_mask (x m k : Nat) :
    x &&& (m <<< k) = ((x >>> k) &&& m) <<< k := by
  apply Nat.eq_of_testBit_eq
  intro i
  simp only [Nat.testBit_and, Nat.testBit_shiftLeft, Nat.testBit_shiftRight, ge_iff_le]
  by_cases h : k ≤ i
  · have hki : k + (i - k) = i := by omega
    simp only [h, hki]
    cases Nat.testBit x i <;> cases Nat.testBit m (i - k) <;> simp
  · simp [h]

theorem and_0xFC0 (s : Nat) : s &&& 0xFC0 = (s / 64 % 64) * 64 := by
  have h1 : (0xFC0 : Nat) = 63 <<< 6 := by decide
  rw [h1, and_shiftLeft_mask, Nat.shiftRight_eq_div_pow, and_63_eq, Nat.shiftLeft_eq]

theorem and_0x3F000 (s : Nat) : s &&& 0x3F000 = (s / 4096 % 64) * 4096 := by
  have h1 : (0x3F000 : Nat) = 63 <<< 12 := by decide
  rw [h1, and_shiftLeft_mask, Nat.shiftRight_eq_div_pow, and_63_eq, Nat.shiftLeft_eq]

/-! ### Single-codepoint round-trip lemmas -/

theorem utf8_1byte (s : Nat) (h : s ≤ 0x7F) :
    Utf82unicode [s % 256] = some s := by
  have hm : s % 256 = s := Nat.mod_eq_of_lt (by omega)
  unfold Utf82unicode
  simp [hm, h]

theorem utf8_2byte (s : Nat) (h1 : 0x80 ≤ s) (h2 : s ≤ 0x7FF) :
    Utf82unicode [(s >>> 6 ||| 0xC0) % 256, (s &&& 0x3F ||| 0x80) % 256] = some s := by
  have hs6 : s >>> 6 = s / 64 := by rw [Nat.shiftRight_eq_div_pow]
  have hb1m : (s >>> 6 ||| 0xC0) % 256 = 0xC0 + s / 64 := by
    rw [hs6, lor_eq_add' 5 (s / 64) 0xC0 (by omega) (by norm_num)]
    omega
  have hb2m : (s &&& 0x3F ||| 0x80) % 256 = 0x80 + s % 64 := by
    rw [and_63_eq, lor_eq_add' 6 (s % 64) 0x80 (by omega) (by norm_num)]
    omega
  rw [hb1m, hb2m]
  unfold Utf82unicode
  simp only [List.length_cons, List.length_nil, List.getD_cons_zero, List.getD_cons_succ]
  rw [if_neg (by omega), if_neg (by omega),
    if_pos (And.intro (by rw [Nat.shiftRight_eq_div_pow]; omega) trivial)]
  rw [and_31_eq, and_63_eq, shiftLeft_or_mod 6 _ _ (by omega)]
  congr 1
  omega

theorem utf8_3byte (s : Nat) (h1 : 0x800 ≤ s) (h2 : s ≤ 0xFFFF) :
    Utf82unicode [(s >>> 12 ||| 0xE0) % 256, ((s &&& 0xFC0) >>> 6 ||| 0x80) % 256,
      (s &&& 0x3F ||| 0x80) % 256] = some s := by
  have hb1m : (s >>> 12 ||| 0xE0) % 256 = 0xE0 + s / 4096 := by
    rw [Nat.shiftRight_eq_div_pow,
      lor_eq_add' 4 (s / 2 ^ 12) 0xE0 (by omega) (by omega)]
    omega
  have hb2m : ((s &&& 0xFC0) >>> 6 ||| 0x80) % 256 = 0x80 + s / 64 % 64 := by
    rw [and_0xFC0, Nat.shiftRight_eq_div_pow]
    have hq : s / 64 % 64 * 64 / 2 ^ 6 = s / 64 % 64 := by omega
    rw [hq, lor_eq_add' 6 (s / 64 % 64) 0x80 (by omega) (by omega)]
    omega
  have hb3m : (s &&& 0x3F ||| 0x80) % 256 = 0x80 + s % 64 := by
    rw [and_63_eq, lor_eq_add' 6 (s % 64) 0x80 (by omega) (by omega)]
    omega
  rw [hb1m, hb2m, hb3m]
  unfold Utf82unicode
  simp only [List.length_cons, List.length_nil, List.getD_cons_zero, List.getD_cons_succ]
  rw [if_neg (by omega), if_neg (by omega),
    if_neg (by intro hc; rw [Nat.shiftRight_eq_div_pow] at hc; omega),
    if_pos (And.intro (by rw [Nat.shiftRight_eq_div_pow]; omega) trivial)]
  rw [and_15_eq, and_63_eq, and_63_eq]
  have m1 : (0xE0 + s / 4096) % 16 = s / 4096 := by omega
  have m2 : (0x80 + s / 64 % 64) % 64 = s / 64 % 64 := by omega
  have m3 : (0x80 + s % 64) % 64 = s % 64 := by omega
  rw [m1, m2, m3, Nat.shiftLeft_eq, Nat.shiftLeft_eq]
  rw [lor_eq_add 12 (s / 4096 * 2 ^ 12) (s / 64 % 64 * 2 ^ 6) (by omega) (by omega)]
  rw [lor_eq_add 6 (s / 4096 * 2 ^ 12 + s / 64 % 64 * 2 ^ 6) (s % 64) (by omega) (by omega)]
  congr 1
  omega

theorem utf8_4byte (s : Nat) (h1 : 0x10000 ≤ s) (h2 : s ≤ 0x10FFFF) :
    Utf82unicode [(s >>> 18 ||| 0xF0) % 256, ((s &&& 0x3F000) >>> 12 ||| 0x80) % 256,
      ((s &&& 0xFC0) >>> 6 ||| 0x80) % 256, (s &&& 0x3F ||| 0x80) % 256] = some s := by
  have hb1m : (s >>> 18 ||| 0xF0) % 256 = 0xF0 + s / 262144 := by
    rw [Nat.shiftRight_eq_div_pow,
      lor_eq_add' 4 (s / 2 ^ 18) 0xF0 (by omega) (by omega)]
    omega
  have hb2m : ((s &&& 0x3F000) >>> 12 ||| 0x80) % 256 = 0x80 + s / 4096 % 64 := by
    rw [and_0x3F000, Nat.shiftRight_eq_div_pow]
    have hq : s / 4096 % 64 * 4096 / 2 ^ 12 = s / 4096 % 64 := by omega
    rw [hq, lor_eq_add' 6 (s / 4096 % 64) 0x80 (by omega) (by omega)]
    omega
  have hb3m : ((s &&& 0xFC0) >>> 6 ||| 0x80) % 256 = 0x80 + s / 64 % 64 := by
    rw [and_0xFC0, Nat.shiftRight_eq_div_pow]
    have hq : s / 64 % 64 * 64 / 2 ^ 6 = s / 64 % 64 := by omega
    rw [hq, lor_eq_add' 6 (s / 64 % 64) 0x80 (by omega) (by omega)]
    omega
  have hb4m : (s &&& 0x3F ||| 0x80) % 256 = 0x80 + s % 64 := by
    rw [and_63_eq, lor_eq_add' 6 (s % 64) 0x80 (by omega) (by omega)]
    omega
  rw [hb1m, hb2m, hb3m, hb4m]
  unfold Utf82unicode
  simp only [List.length_cons, List.length_nil, List.getD_cons_zero, List.getD_cons_succ]
  rw [if_neg (by omega), if_neg (by omega),
    if_neg (by intro hc; rw [Nat.shiftRight_eq_div_pow] at hc; omega),
    if_neg (by intro hc; rw [Nat.shiftRight_eq_div_pow] at hc; omega),
    if_pos (And.intro (by rw [Nat.shiftRight_eq_div_pow]; omega) trivial)]
  rw [and_7_eq, and_63_eq, and_63_eq, and_63_eq]
  have m1 : (0xF0 + s / 262144) % 8 = s / 262144 := by omega
  have m2 : (0x80 + s / 4096 % 64) % 64 = s / 4096 % 64 := by omega
  have m3 : (0x80 + s / 64 % 64) % 64 = s / 64 % 64 := by omega
  have m4 : (0x80 + s % 64) % 64 = s % 64 := by omega
  rw [m1, m2, m3, m4, Nat.shiftLeft_eq, Nat.shiftLeft_eq, Nat.shiftLeft_eq]
  rw [lor_eq_add 18 (s / 262144 * 2 ^ 18) (s / 4096 % 64 * 2 ^ 12) (by omega) (by omega)]
  rw [lor_eq_add 12 (s / 262144 * 2 ^ 18 + s / 4096 % 64 * 2 ^ 12) (s / 64 % 64 * 2 ^ 6)
    (by omega) (by omega)]
  rw [lor_eq_add 6 (s / 262144 * 2 ^ 18 + s / 4096 % 64 * 2 ^ 12 + s / 64 % 64 * 2 ^ 6)
    (s % 64) (by omega) (by omega)]
  congr 1
  omega

/-- C7: for every Unicode scalar in `[0, 0x10FFFF]` outside the
surrogate range, `Unicode2utf8` succeeds and `Utf82unicode` applied to
its output returns the original scalar.  (The encoder does not even
consult the surrogate exclusion, so the hypothesis `h2` is not needed by
the proof; it delimits the claimed domain.) -/
theorem unicode_utf8_roundtrip (s : Nat) (h1 : s ≤ 0x10FFFF)
    (h2 : ¬(0xD800 ≤ s ∧ s ≤ 0xDFFF)) :
    ∃ bs, Unicode2utf8 s = some bs ∧ Utf82unicode bs = some s := by
  unfold Unicode2utf8
  by_cases hA : s ≤ 0x7F
  · rw [if_pos hA]
    exact ⟨_, rfl, utf8_1byte s hA⟩
  · rw [if_neg hA]
    by_cases hB : 0x80 ≤ s ∧ s ≤ 0x7FF
    · rw [if_pos hB]
      exact ⟨_, rfl, utf8_2byte s hB.1 hB.2⟩
    · rw [if_neg hB]
      by_cases hC : 0x800 ≤ s ∧ s ≤ 0xFFFF
      · rw [if_pos hC]
        exact ⟨_, rfl, utf8_3byte s hC.1 hC.2⟩
      · rw [if_neg hC]
        rw [if_pos (by omega)]
        exact ⟨_, rfl, utf8_4byte s (by omega) (by omega)⟩

/-- C7 witness: the round-trip theorem applied at the concrete scalar
U+6C49, with both domain hypotheses discharged by computation. -/
theorem unicode_utf8_roundtrip_witness :
    ∃ bs, Unicode2utf8 0x6C49 = some bs ∧ Utf82unicode bs = some 0x6C49 :=
  unicode_utf8_roundtrip 0x6C49 (by decide) (by decide)

/-! ### Connection-pool invariants -/

theorem runPool_invariant (ops : List PoolOp) :
    ∀ cp : ConnPool,
    delsPresent cp ops = true →
    cp.count = cp.p.length →
    cp.count ≤ cp.idx →
    cp.p.Nodup →
    (∀ x ∈ cp.p, x ≤ cp.idx) →
    cp.idx + countAdds ops < 2 ^ 64 →
    (runPool cp ops).1.count = (runPool cp ops).1.p.length ∧
      (runPool cp ops).2 = List.range' (cp.idx + 1) (countAdds ops) := by
  induction ops with
  | nil =>
    intro cp hv hc hle hnd hel hk
    simp [runPool, countAdds, hc]
  | cons op ops ih =>
    intro cp hv hc hle hnd hel hk
    cases op with
    | add =>
      have hcA : countAdds (PoolOp.add :: ops) = countAdds ops + 1 := rfl
      have hidx : (cp.idx + 1) % 2 ^ 64 = cp.idx + 1 := Nat.mod_eq_of_lt (by rw [hcA] at hk; omega)
      have hcnt : (cp.count + 1) % 2 ^ 64 = cp.count + 1 := Nat.mod_eq_of_lt (by rw [hcA] at hk; omega)
      have hnotmem : (cp.idx + 1) ∉ cp.p := by
        intro hmem
        have := hel _ hmem
        omega
      have hins : List.insert (cp.idx + 1) cp.p = (cp.idx + 1) :: cp.p :=
        List.insert_of_not_mem hnotmem
      have hAdd : cp.Add = (⟨(cp.idx + 1) :: cp.p, cp.idx + 1, cp.count + 1⟩, cp.idx + 1) := by
        simp only [ConnPool.Add]
        rw [hidx, hcnt, hins]
      have hv' : delsPresent cp.Add.1 ops = true := by
        simpa [delsPresent] using hv
      rw [hAdd] at hv'
      obtain ⟨ihc, ihr⟩ := ih ⟨(cp.idx + 1) :: cp.p, cp.idx + 1, cp.count + 1⟩ hv'
        (show cp.count + 1 = ((cp.idx + 1) :: cp.p).length by simp [hc])
        (show cp.count + 1 ≤ cp.idx + 1 by omega)
        (show ((cp.idx + 1) :: cp.p).Nodup from List.nodup_cons.mpr ⟨hnotmem, hnd⟩)
        (show ∀ x ∈ (cp.idx + 1) :: cp.p, x ≤ cp.idx + 1 by
          intro x hx
          rcases List.mem_cons.mp hx with rfl | hx
          · omega
          · exact Nat.le_succ_of_le (hel x hx))
        (show cp.idx + 1 + countAdds ops < 2 ^ 64 by rw [hcA] at hk; omega)
      have hrun : runPool cp (PoolOp.add :: ops) =
          ((runPool ⟨(cp.idx + 1) :: cp.p, cp.idx + 1, cp.count + 1⟩ ops).1,
            (cp.idx + 1) :: (runPool ⟨(cp.idx + 1) :: cp.p, cp.idx + 1, cp.count + 1⟩ ops).2) := by
        simp only [runPool]
        rw [hAdd]
      rw [hrun]
      refine ⟨ihc, ?_⟩
      rw [hcA, List.range'_succ]
      simp [ihr]
    | del id =>
      have hcA : countAdds (PoolOp.del id :: ops) = countAdds ops := rfl
      have hv1 : cp.p.contains id = true ∧ delsPresent (cp.Del id) ops = true := by
        simpa [delsPresent] using hv
      have hmem : id ∈ cp.p := by
        simpa using hv1.1
      have hlen1 : 1 ≤ cp.p.length := List.length_pos.mpr (List.ne_nil_of_mem hmem)
      have hcnt : (cp.count + (2 ^ 64 - 1)) % 2 ^ 64 = cp.count - 1 := by
        have h1 : 1 ≤ cp.count := by omega
        have h2 : cp.count < 2 ^ 64 := by omega
        omega
      have herase : (cp.p.erase id).length = cp.p.length - 1 :=
        List.length_erase_of_mem hmem
      have hDel : cp.Del id = ⟨cp.p.erase id, cp.idx, cp.count - 1⟩ := by
        simp only [ConnPool.Del]
        rw [hcnt]
      have hv2 := hv1.2
      rw [hDel] at hv2
      obtain ⟨ihc, ihr⟩ := ih ⟨cp.p.erase id, cp.idx, cp.count - 1⟩ hv2
        (show cp.count - 1 = (cp.p.erase id).length by rw [herase, hc])
        (show cp.count - 1 ≤ cp.idx by omega)
        (show (cp.p.erase id).Nodup from hnd.erase id)
        (show ∀ x ∈ cp.p.erase id, x ≤ cp.idx by
          intro x hx
          exact hel x (List.mem_of_mem_erase hx))
        (show cp.idx + countAdds ops < 2 ^ 64 by rw [hcA] at hk; omega)
      have hrun : runPool cp (PoolOp.del id :: ops) =
          runPool ⟨cp.p.erase id, cp.idx, cp.count - 1⟩ ops := by
        simp only [runPool]
        rw [hDel]
      rw [hrun, hcA]
      exact ⟨ihc, ihr⟩

theorem pool_range_pairwise (s n : Nat) : (List.range' s n).Pairwise (· < ·) := by
  induction n generalizing s with
  | zero => simp
  | succ n ih =>
    rw [List.range'_succ]
    refine List.Pairwise.cons ?_ (ih (s + 1))
    intro m hm
    rw [List.mem_range'] at hm
    obtain ⟨i, hi, rfl⟩ := hm
    omega

/-- C8 (amended): starting from `NewConnPool`, for every finite operation
sequence in which each `Del` targets an ID currently in the map and with
fewer than 2^64 `Add`s, after the sequence `Count()` equals the number of
entries in the ID map (hence at every intermediate point, by applying
this theorem to the prefix), and the IDs assigned by the `Add`s are
exactly `[1, 2, …]` — nonzero, strictly increasing, and never reused. -/
theorem connPool_invariants (ops : List PoolOp)
    (hv : delsPresent NewConnPool ops = true)
    (hk : countAdds ops < 2 ^ 64) :
    (runPool NewConnPool ops).1.Count = (runPool NewConnPool ops).1.p.length ∧
    (runPool NewConnPool ops).2 = List.range' 1 (countAdds ops) ∧
    0 ∉ (runPool NewConnPool ops).2 ∧
    (runPool NewConnPool ops).2.Pairwise (· < ·) ∧
    (runPool NewConnPool ops).2.Nodup := by
  obtain ⟨h1, h2⟩ := runPool_invariant ops NewConnPool hv rfl (Nat.le_refl 0)
    (by simp [NewConnPool]) (by simp [NewConnPool]) (by simpa [NewConnPool] using hk)
  refine ⟨h1, h2, ?_, ?_, ?_⟩
  · rw [h2]
    intro hmem
    rw [List.mem_range'] at hmem
    obtain ⟨i, hi, heq⟩ := hmem
    omega
  · rw [h2]
    exact pool_range_pairwise 1 (countAdds ops)
  · rw [h2]
    exact (pool_range_pairwise 1 (countAdds ops)).imp Nat.ne_of_lt

/-- C8 witness: the invariant theorem applied to the concrete sequence
`Add, Add, Del 1, Add`, hypotheses discharged by computation. -/
theorem connPool_invariants_witness :
    (runPool NewConnPool [.add, .add, .del 1, .add]).1.Count =
      (runPool NewConnPool [.add, .add, .del 1, .add]).1.p.length ∧
    (runPool NewConnPool [.add, .add, .del 1, .add]).2 = List.range' 1 3 ∧
    0 ∉ (runPool NewConnPool [.add, .add, .del 1, .add]).2 ∧
    (runPool NewConnPool [.add, .add, .del 1, .add]).2.Pairwise (· < ·) ∧
    (runPool NewConnPool [.add, .add, .del 1, .add]).2.Nodup :=
  connPool_invariants [.add, .add, .del 1, .add] (by decide) (by decide)

/-! ### Handshake-check characterization -/

theorem hasKey_iff_get_ne_nil (h : Header) (k : String) :
    Header.HasKey h k = true ↔ Header.Get h k ≠ [] := by
  unfold Header.HasKey Header.Get
  rw [List.any_eq_true]
  constructor
  · rintro ⟨kv, hmem, hkv⟩ hnil
    rw [List.map_eq_nil_iff, List.filter_eq_nil_iff] at hnil
    exact hnil kv hmem hkv
  · intro hne
    by_contra hno
    push_neg at hno
    apply hne
    rw [List.map_eq_nil_iff, List.filter_eq_nil_iff]
    intro a ha hpa
    exact hno a ha hpa

theorem hasKeyAndValEqual_iff (h : Header) (k v : String) :
    Header.HasKeyAndValEqual h k v = true ↔
      Header.HasKey h k = true ∧ Header.GetOne h k = v := by
  rw [hasKey_iff_get_ne_nil]
  unfold Header.HasKeyAndValEqual Header.GetOne
  cases hG : Header.Get h k with
  | nil => simp
  | cons x xs => simp [beq_iff_eq]

theorem hasKeyAndValContains_iff (h : Header) (k v : String) :
    Header.HasKeyAndValContains h k v = true ↔
      Header.HasKey h k = true ∧ containsSubstr (Header.GetOne h k) v = true := by
  rw [hasKey_iff_get_ne_nil]
  unfold Header.HasKeyAndValContains Header.GetOne
  cases hG : Header.Get h k with
  | nil => simp
  | cons x xs => simp

/-- C4: `DefaultServerHandshakeCheck` returns `(0, nil)` exactly when the
protocol version is "1.1", `Host` is present, the first `Connection`
value contains "Upgrade", the first `Upgrade` value is "websocket", the
first `Sec-WebSocket-Version` value is "13", `Sec-WebSocket-Key` is
present, and the router has a handler for the path; failing one of the
first six rules yields 400, failing only the handler lookup yields 404.
(The source's duplicated version checks are propositionally unreachable
and collapse into the single rule.) -/
theorem defaultServerHandshakeCheck_spec (req : HandshakeRequest) (router : List String) :
    (DefaultServerHandshakeCheck req router = (0, none) ↔
      (req.ProtoVer = "1.1" ∧
        Header.HasKey req.header ("Host") = true ∧
        (Header.HasKey req.header ("Connection") = true ∧
          containsSubstr (Header.GetOne req.header ("Connection")) ("Upgrade") = true) ∧
        (Header.HasKey req.header ("Upgrade") = true ∧
          Header.GetOne req.header ("Upgrade") = "websocket") ∧
        (Header.HasKey req.header ("Sec-WebSocket-Version") = true ∧
          Header.GetOne req.header ("Sec-WebSocket-Version") = "13") ∧
        Header.HasKey req.header ("Sec-WebSocket-Key") = true ∧
        router.contains req.URLPath = true)) ∧
    (¬(req.ProtoVer = "1.1" ∧
        Header.HasKey req.header ("Host") = true ∧
        (Header.HasKey req.header ("Connection") = true ∧
          containsSubstr (Header.GetOne req.header ("Connection")) ("Upgrade") = true) ∧
        (Header.HasKey req.header ("Upgrade") = true ∧
          Header.GetOne req.header ("Upgrade") = "websocket") ∧
        (Header.HasKey req.header ("Sec-WebSocket-Version") = true ∧
          Header.GetOne req.header ("Sec-WebSocket-Version") = "13") ∧
        Header.HasKey req.header ("Sec-WebSocket-Key") = true) →
      (DefaultServerHandshakeCheck req router).1 = 400) ∧
    ((req.ProtoVer = "1.1" ∧
        Header.HasKey req.header ("Host") = true ∧
        (Header.HasKey req.header ("Connection") = true ∧
          containsSubstr (Header.GetOne req.header ("Connection")) ("Upgrade") = true) ∧
        (Header.HasKey req.header ("Upgrade") = true ∧
          Header.GetOne req.header ("Upgrade") = "websocket") ∧
        (Header.HasKey req.header ("Sec-WebSocket-Version") = true ∧
          Header.GetOne req.header ("Sec-WebSocket-Version") = "13") ∧
        Header.HasKey req.header ("Sec-WebSocket-Key") = true) →
      ¬(router.contains req.URLPath = true) →
      (DefaultServerHandshakeCheck req router).1 = 404) := by
  have e3 := hasKeyAndValContains_iff req.header ("Connection") ("Upgrade")
  have e4 := hasKeyAndValEqual_iff req.header ("Upgrade") ("websocket")
  have e5 := hasKeyAndValEqual_iff req.header ("Sec-WebSocket-Version") ("13")
  unfold DefaultServerHandshakeCheck
  by_cases h1 : req.ProtoVer ≠ "1.1"
  · rw [if_pos h1]
    exact ⟨Iff.intro (fun habs => by simp at habs) (fun hr => absurd hr.1 h1),
      fun _ => rfl, fun hsix _ => absurd hsix.1 h1⟩
  rw [if_neg h1]
  rw [not_not] at h1
  by_cases h2 : ¬(Header.HasKey req.header ("Host") = true)
  · rw [if_pos h2]
    exact ⟨Iff.intro (fun habs => by simp at habs) (fun hr => absurd hr.2.1 h2),
      fun _ => rfl, fun hsix _ => absurd hsix.2.1 h2⟩
  rw [if_neg h2]
  rw [not_not] at h2
  by_cases h3 : ¬(Header.HasKeyAndValContains req.header ("Connection") ("Upgrade") = true)
  · rw [if_pos h3]
    exact ⟨Iff.intro (fun habs => by simp at habs) (fun hr => absurd (e3.mpr hr.2.2.1) h3),
      fun _ => rfl, fun hsix _ => absurd (e3.mpr hsix.2.2.1) h3⟩
  rw [if_neg h3]
  rw [not_not] at h3
  by_cases h4 : ¬(Header.HasKeyAndValEqual req.header ("Upgrade") ("websocket") = true)
  · rw [if_pos h4]
    exact ⟨Iff.intro (fun habs => by simp at habs) (fun hr => absurd (e4.mpr hr.2.2.2.1) h4),
      fun _ => rfl, fun hsix _ => absurd (e4.mpr hsix.2.2.2.1) h4⟩
  rw [if_neg h4]
  rw [not_not] at h4
  by_cases h5 : ¬(Header.HasKeyAndValEqual req.header ("Sec-WebSocket-Version") ("13") = true)
  · rw [if_pos h5]
    exact ⟨Iff.intro (fun habs => by simp at habs) (fun hr => absurd (e5.mpr hr.2.2.2.2.1) h5),
      fun _ => rfl, fun hsix _ => absurd (e5.mpr hsix.2.2.2.2.1) h5⟩
  rw [if_neg h5]
  rw [not_not] at h5
  rw [if_neg (not_not_intro (e5.mp h5).1), if_neg (not_not_intro (e5.mp h5).2)]
  by_cases h8 : ¬(Header.HasKey req.header ("Sec-WebSocket-Key") = true)
  · rw [if_pos h8]
    exact ⟨Iff.intro (fun habs => by simp at habs) (fun hr => absurd hr.2.2.2.2.2.1 h8),
      fun _ => rfl, fun hsix _ => absurd hsix.2.2.2.2.2 h8⟩
  rw [if_neg h8]
  rw [not_not] at h8
  by_cases h9 : ¬(router.contains req.URLPath = true)
  · rw [if_pos h9]
    refine ⟨Iff.intro (fun habs => by simp at habs) (fun hr => absurd hr.2.2.2.2.2.2 h9),
      ?_, fun _ _ => rfl⟩
    intro hsix
    exact absurd ⟨h1, h2, e3.mp h3, e4.mp h4, e5.mp h5, h8⟩ hsix
  rw [if_neg h9]
  rw [not_not] at h9
  refine ⟨Iff.intro (fun _ => ⟨h1, h2, e3.mp h3, e4.mp h4, e5.mp h5, h8, h9⟩) (fun _ => rfl),
    ?_, fun _ hr => absurd h9 hr⟩
  intro hsix
  exact absurd ⟨h1, h2, e3.mp h3, e4.mp h4, e5.mp h5, h8⟩ hsix

/-- C4 witness: the characterization applied to a concrete well-formed
request (including Firefox's "keep-alive, Upgrade" Connection value) and
a router holding its path, all seven rules discharged by computation. -/
theorem defaultServerHandshakeCheck_spec_witness :
    DefaultServerHandshakeCheck
      ⟨"1.1", "/chat",
        [(("Host"), ("example.com")),
          (("Connection"), ("keep-alive, Upgrade")),
          (("Upgrade"), ("websocket")),
          (("Sec-WebSocket-Version"), ("13")),
          (("Sec-WebSocket-Key"), ("M/A="))]⟩
      ["/chat"] = (0, none) :=
  (defaultServerHandshakeCheck_spec
    ⟨"1.1", "/chat",
      [(("Host"), ("example.com")),
        (("Connection"), ("keep-alive, Upgrade")),
        (("Upgrade"), ("websocket")),
        (("Sec-WebSocket-Version"), ("13")),
        (("Sec-WebSocket-Key"), ("M/A="))]⟩
    ["/chat"]).1.mpr (by decide)

/-! ### Stream-read lemmas and the frame round-trip -/


theorem flatten_readStream (s : Stream') (k : Nat) :
    flattenStream s = (readStream s k).1 ++ flattenStream (readStream s k).2.1 := by
  cases s with
  | nil => rfl
  | cons c rest =>
    by_cases hc : c.length ≤ k
    · simp [readStream, flattenStream, hc, List.take_of_length_le hc]
    · simp only [readStream, flattenStream, if_neg hc]
      rw [← List.append_assoc, List.take_append_drop]

theorem rbLoop_sound (fuel : Nat) :
    ∀ s size n acc out s2, rbLoop fuel s size n acc = some (out, s2) →
    ∃ consumed, out = acc ++ consumed ∧ n + consumed.length = size ∧
      flattenStream s = consumed ++ flattenStream s2 := by
  induction fuel with
  | zero =>
    intro s size n acc out s2 h
    simp [rbLoop] at h
  | succ fuel ih =>
    intro s size n acc out s2 h
    cases s with
    | nil =>
      simp [rbLoop, readStream] at h
    | cons c rest =>
      rw [rbLoop] at h
      simp only [readStream] at h
      by_cases hpos : 0 < (c.take 512).length
      · rw [if_pos hpos] at h
        by_cases hsz : n + (c.take 512).length = size
        · rw [if_pos hsz] at h
          simp only [Option.some.injEq, Prod.mk.injEq] at h
          refine ⟨c.take 512, h.1.symm, by omega, ?_⟩
          have := flatten_readStream (c :: rest) 512
          simp only [readStream] at this
          rw [this, h.2]
        · rw [if_neg hsz, if_neg (by simp)] at h
          obtain ⟨consumed, hout, hlen, hfl⟩ := ih _ _ _ _ _ _ h
          refine ⟨c.take 512 ++ consumed, by rw [hout, List.append_assoc], by
            simp at hlen ⊢; omega, ?_⟩
          have := flatten_readStream (c :: rest) 512
          simp only [readStream] at this
          rw [this, hfl, List.append_assoc]
      · rw [if_neg hpos, if_neg (by simp)] at h
        obtain ⟨consumed, hout, hlen, hfl⟩ := ih _ _ _ _ _ _ h
        have hce : c.take 512 = [] := by
          rw [List.length_pos] at hpos
          simpa using hpos
        refine ⟨consumed, hout, hlen, ?_⟩
        have := flatten_readStream (c :: rest) 512
        simp only [readStream] at this
        rw [this, hce, hfl, List.nil_append]

theorem rbLoop_short (fuel : Nat) :
    ∀ s size n acc, (flattenStream s).length + n < size →
    rbLoop fuel s size n acc = none := by
  induction fuel with
  | zero => intros; rfl
  | succ fuel ih =>
    intro s size n acc hlt
    cases s with
    | nil =>
      simp [rbLoop, readStream]
    | cons c rest =>
      rw [rbLoop]
      simp only [readStream]
      have hfl := flatten_readStream (c :: rest) 512
      simp only [readStream] at hfl
      have hlen : (c.take 512).length + (flattenStream ((c :: rest) |> fun s =>
        if c.length ≤ 512 then rest else c.drop 512 :: rest)).length =
        (flattenStream (c :: rest)).length := by
        rw [hfl]
        simp
      by_cases hpos : 0 < (c.take 512).length
      · rw [if_pos hpos]
        rw [if_neg (by simp at hlen ⊢; omega), if_neg (by simp)]
        apply ih
        simp at hlen ⊢
        omega
      · rw [if_neg hpos, if_neg (by simp)]
        apply ih
        have hce : (c.take 512).length = 0 := by omega
        simp at hlen ⊢
        omega

theorem rbLoop_exact (fuel : Nat) :
    ∀ c size n acc, c ≠ [] → c.length + 1 ≤ fuel → n + c.length = size →
    rbLoop fuel [c] size n acc = some (acc ++ c, []) := by
  induction fuel with
  | zero =>
    intro c size n acc hne hf hsz
    exact absurd hf (by omega)
  | succ fuel ih =>
    intro c size n acc hne hf hsz
    have hpos : 0 < c.length := List.length_pos.mpr hne
    rw [rbLoop]
    simp only [readStream]
    by_cases hle : c.length ≤ 512
    · have htake : c.take 512 = c := List.take_of_length_le hle
      simp [htake, hle, hpos, hsz]
    · have h512 : (c.take 512).length = 512 := by
        simp
        omega
      have hdne : c.drop 512 ≠ [] := by
        intro hd
        have := congrArg List.length hd
        simp at this
        omega
      have ihr := ih (c.drop 512) size (n + 512) (acc ++ c.take 512) hdne
        (by simp; omega) (by simp; omega)
      simp only [if_neg hle, h512, if_pos (by omega : (0:Nat) < 512)]
      rw [if_neg (by omega : ¬(n + 512 = size))]
      rw [if_neg (by simp : ¬(false = true))]
      rw [ihr, List.append_assoc, List.take_append_drop]



theorem readBytesAsMath_sound (s : Stream') (size : Nat) (out : List Nat) (s2 : Stream')
    (h : ReadBytesAsMath s size = some (out, s2)) :
    out.length = size ∧ flattenStream s = out ++ flattenStream s2 := by
  obtain ⟨consumed, hout, hlen, hfl⟩ := rbLoop_sound (streamFuel s) s size 0 [] out s2 h
  simp at hout
  subst hout
  exact ⟨by omega, hfl⟩

theorem readBytesAsMath_short (s : Stream') (size : Nat)
    (h : (flattenStream s).length < size) :
    ReadBytesAsMath s size = none :=
  rbLoop_short (streamFuel s) s size 0 [] (by omega)

theorem readBytesAsMath_exact (c : List Nat) (hne : c ≠ []) :
    ReadBytesAsMath [c] c.length = some (c, []) := by
  have hf : c.length + 1 ≤ streamFuel [c] := by
    simp [streamFuel]
  simpa using rbLoop_exact (streamFuel [c]) c c.length 0 [] hne hf (by omega)

theorem fromBufReader_zero_len (b0 : Nat) (rest : Stream') (maxP : Nat)
    (hop : CheckOpcode (b0 &&& 0xF) = true) :
    Frame.FromBufReader ([b0, 0] :: rest) maxP =
      .ok (⟨b0 >>> 7, ((b0 <<< 1) % 256) >>> 7, ((b0 <<< 2) % 256) >>> 7,
        ((b0 <<< 3) % 256) >>> 7, b0 &&& 0xF, 0, 0, 0, []⟩, rest) := by
  unfold Frame.FromBufReader
  simp [readStream, hop]



theorem recon16 (n : Nat) (h : n < 65536) :
    ((n >>> 8) % 256) <<< 8 ||| n % 256 = n := by
  rw [Nat.shiftRight_eq_div_pow, shiftLeft_or_mod 8 _ _ (by omega)]
  omega

theorem recon64 (n : Nat) (h : n < 2 ^ 64) :
    ((n >>> 56) % 256) <<< 56 ||| ((n >>> 48) % 256) <<< 48 |||
      ((n >>> 40) % 256) <<< 40 ||| ((n >>> 32) % 256) <<< 32 |||
      ((n >>> 24) % 256) <<< 24 ||| ((n >>> 16) % 256) <<< 16 |||
      ((n >>> 8) % 256) <<< 8 ||| n % 256 = n := by
  simp only [Nat.shiftRight_eq_div_pow, Nat.shiftLeft_eq]
  rw [lor_eq_add 56 (n / 2 ^ 56 % 256 * 2 ^ 56) (n / 2 ^ 48 % 256 * 2 ^ 48)
    (by omega) (by omega)]
  rw [lor_eq_add 48 (n / 2 ^ 56 % 256 * 2 ^ 56 + n / 2 ^ 48 % 256 * 2 ^ 48)
    (n / 2 ^ 40 % 256 * 2 ^ 40) (by omega) (by omega)]
  rw [lor_eq_add 40 (n / 2 ^ 56 % 256 * 2 ^ 56 + n / 2 ^ 48 % 256 * 2 ^ 48 +
    n / 2 ^ 40 % 256 * 2 ^ 40) (n / 2 ^ 32 % 256 * 2 ^ 32) (by omega) (by omega)]
  rw [lor_eq_add 32 (n / 2 ^ 56 % 256 * 2 ^ 56 + n / 2 ^ 48 % 256 * 2 ^ 48 +
    n / 2 ^ 40 % 256 * 2 ^ 40 + n / 2 ^ 32 % 256 * 2 ^ 32)
    (n / 2 ^ 24 % 256 * 2 ^ 24) (by omega) (by omega)]
  rw [lor_eq_add 24 (n / 2 ^ 56 % 256 * 2 ^ 56 + n / 2 ^ 48 % 256 * 2 ^ 48 +
    n / 2 ^ 40 % 256 * 2 ^ 40 + n / 2 ^ 32 % 256 * 2 ^ 32 +
    n / 2 ^ 24 % 256 * 2 ^ 24) (n / 2 ^ 16 % 256 * 2 ^ 16) (by omega) (by omega)]
  rw [lor_eq_add 16 (n / 2 ^ 56 % 256 * 2 ^ 56 + n / 2 ^ 48 % 256 * 2 ^ 48 +
    n / 2 ^ 40 % 256 * 2 ^ 40 + n / 2 ^ 32 % 256 * 2 ^ 32 +
    n / 2 ^ 24 % 256 * 2 ^ 24 + n / 2 ^ 16 % 256 * 2 ^ 16)
    (n / 2 ^ 8 % 256 * 2 ^ 8) (by omega) (by omega)]
  rw [lor_eq_add 8 (n / 2 ^ 56 % 256 * 2 ^ 56 + n / 2 ^ 48 % 256 * 2 ^ 48 +
    n / 2 ^ 40 % 256 * 2 ^ 40 + n / 2 ^ 32 % 256 * 2 ^ 32 +
    n / 2 ^ 24 % 256 * 2 ^ 24 + n / 2 ^ 16 % 256 * 2 ^ 16 +
    n / 2 ^ 8 % 256 * 2 ^ 8) (n % 256) (by omega) (by omega)]
  omega

theorem byte0_fields (fin r1 r2 r3 op : Nat) (hf : fin ≤ 1) (h1 : r1 ≤ 1)
    (h2 : r2 ≤ 1) (h3 : r3 ≤ 1) (hop : CheckOpcode op = true) :
    (((fin <<< 7) % 256) ||| ((r1 <<< 6) % 256) ||| ((r2 <<< 5) % 256) |||
        ((r3 <<< 4) % 256) ||| op) >>> 7 = fin ∧
    (((((fin <<< 7) % 256) ||| ((r1 <<< 6) % 256) ||| ((r2 <<< 5) % 256) |||
        ((r3 <<< 4) % 256) ||| op) <<< 1) % 256) >>> 7 = r1 ∧
    (((((fin <<< 7) % 256) ||| ((r1 <<< 6) % 256) ||| ((r2 <<< 5) % 256) |||
        ((r3 <<< 4) % 256) ||| op) <<< 2) % 256) >>> 7 = r2 ∧
    (((((fin <<< 7) % 256) ||| ((r1 <<< 6) % 256) ||| ((r2 <<< 5) % 256) |||
        ((r3 <<< 4) % 256) ||| op) <<< 3) % 256) >>> 7 = r3 ∧
    (((fin <<< 7) % 256) ||| ((r1 <<< 6) % 256) ||| ((r2 <<< 5) % 256) |||
        ((r3 <<< 4) % 256) ||| op) &&& 0xF = op ∧
    CheckOpcode ((((fin <<< 7) % 256) ||| ((r1 <<< 6) % 256) ||| ((r2 <<< 5) % 256) |||
        ((r3 <<< 4) % 256) ||| op) &&& 0xF) = true := by
  have hop6 : op = 0 ∨ op = 1 ∨ op = 2 ∨ op = 8 ∨ op = 9 ∨ op = 10 := by
    simp only [CheckOpcode, OpcodeContinue, OpcodeText, OpcodeBinary, OpcodeClose,
      OpcodePing, OpcodePong, Bool.or_eq_true, beq_iff_eq] at hop
    tauto
  clear hop
  interval_cases fin <;> interval_cases r1 <;> interval_cases r2 <;> interval_cases r3 <;>
    rcases hop6 with rfl | rfl | rfl | rfl | rfl | rfl <;> decide



theorem fromBufReader_small (b0 : Nat) (payload : List Nat) (maxP : Nat)
    (hop : CheckOpcode (b0 &&& 0xF) = true)
    (hn : 0 < payload.length) (hn125 : payload.length ≤ 125)
    (hmax : payload.length ≤ maxP) :
    Frame.FromBufReader [b0 :: payload.length :: payload] maxP =
      .ok (⟨b0 >>> 7, ((b0 <<< 1) % 256) >>> 7, ((b0 <<< 2) % 256) >>> 7,
        ((b0 <<< 3) % 256) >>> 7, b0 &&& 0xF, 0, payload.length, 0, payload⟩, []) := by
  have hpne : payload ≠ [] := by
    intro hd
    rw [hd] at hn
    simp at hn
  have hmask0 : payload.length >>> 7 = 0 := by
    rw [Nat.shiftRight_eq_div_pow]
    omega
  have hplen : payload.length &&& 0x7F = payload.length := by
    rw [and_127_eq]
    omega
  have hnomax : ¬(payload.length > maxP) := by omega
  unfold Frame.FromBufReader
  simp [readStream, hop, hmask0, hplen, hn125, hn, hnomax, hpne,
    readBytesAsMath_exact payload hpne, Nat.lt_irrefl]



theorem fromBufReader_ext16 (b0 e0 e1 : Nat) (payload : List Nat) (maxP : Nat)
    (hop : CheckOpcode (b0 &&& 0xF) = true)
    (hrec : (e0 <<< 8) ||| e1 = payload.length)
    (hn : 0 < payload.length) (hmax : payload.length ≤ maxP) :
    Frame.FromBufReader [b0 :: 126 :: e0 :: e1 :: payload] maxP =
      .ok (⟨b0 >>> 7, ((b0 <<< 1) % 256) >>> 7, ((b0 <<< 2) % 256) >>> 7,
        ((b0 <<< 3) % 256) >>> 7, b0 &&& 0xF, 0, payload.length, 0, payload⟩, []) := by
  have hpne : payload ≠ [] := by
    intro hd
    rw [hd] at hn
    simp at hn
  have hnomax : ¬(payload.length > maxP) := by omega
  unfold Frame.FromBufReader
  simp [readStream, hop, hrec, hn, hnomax, hpne,
    readBytesAsMath_exact payload hpne, Nat.lt_irrefl,
    (by decide : (126 : Nat) &&& 127 = 126)]

theorem fromBufReader_ext64 (b0 e0 e1 e2 e3 e4 e5 e6 e7 : Nat) (payload : List Nat)
    (maxP : Nat)
    (hop : CheckOpcode (b0 &&& 0xF) = true)
    (hrec : (e0 <<< 56) ||| (e1 <<< 48) ||| (e2 <<< 40) ||| (e3 <<< 32) |||
      (e4 <<< 24) ||| (e5 <<< 16) ||| (e6 <<< 8) ||| e7 = payload.length)
    (hn : 0 < payload.length) (hmax : payload.length ≤ maxP) :
    Frame.FromBufReader [b0 :: 127 :: e0 :: e1 :: e2 :: e3 :: e4 :: e5 :: e6 :: e7 :: payload] maxP =
      .ok (⟨b0 >>> 7, ((b0 <<< 1) % 256) >>> 7, ((b0 <<< 2) % 256) >>> 7,
        ((b0 <<< 3) % 256) >>> 7, b0 &&& 0xF, 0, payload.length, 0, payload⟩, []) := by
  have hpne : payload ≠ [] := by
    intro hd
    rw [hd] at hn
    simp at hn
  have hnomax : ¬(payload.length > maxP) := by omega
  unfold Frame.FromBufReader
  simp [readStream, hop, hrec, hn, hnomax, hpne,
    readBytesAsMath_exact payload hpne, Nat.lt_irrefl,
    (by decide : (127 : Nat) &&& 127 = 127)]



theorem toBytes_small (g : Nat → Nat) (f : Frame) (hmask : f.MASK = 0)
    (h125 : f.PayloadData.length ≤ 125) :
    Frame.ToBytes g f false = some (frameByte0 f :: f.PayloadData.length :: f.PayloadData) := by
  have hm : f.PayloadData.length % 256 = f.PayloadData.length := by omega
  unfold Frame.ToBytes frameByte0
  simp [hmask, h125, hm]

theorem toBytes_ext16 (g : Nat → Nat) (f : Frame) (hmask : f.MASK = 0)
    (hlo : 125 < f.PayloadData.length) (hhi : f.PayloadData.length ≤ 65535) :
    Frame.ToBytes g f false = some (frameByte0 f :: 126 ::
      (f.PayloadData.length >>> 8) % 256 :: f.PayloadData.length % 256 ::
      f.PayloadData) := by
  simp only [Frame.ToBytes, frameByte0]
  rw [if_neg (by omega : ¬(f.PayloadData.length ≤ 125)), if_pos hhi]
  simp [hmask]

theorem toBytes_ext64 (g : Nat → Nat) (f : Frame) (hmask : f.MASK = 0)
    (hlo : 65535 < f.PayloadData.length) :
    Frame.ToBytes g f false = some (frameByte0 f :: 127 ::
      (f.PayloadData.length >>> 56) % 256 :: (f.PayloadData.length >>> 48) % 256 ::
      (f.PayloadData.length >>> 40) % 256 :: (f.PayloadData.length >>> 32) % 256 ::
      (f.PayloadData.length >>> 24) % 256 :: (f.PayloadData.length >>> 16) % 256 ::
      (f.PayloadData.length >>> 8) % 256 :: f.PayloadData.length % 256 ::
      f.PayloadData) := by
  simp only [Frame.ToBytes, frameByte0]
  rw [if_neg (by omega : ¬(f.PayloadData.length ≤ 125)),
    if_neg (by omega : ¬(f.PayloadData.length ≤ 65535)),
    if_pos (by omega : f.PayloadData.length % 2 ^ 64 ≤ 2 ^ 64 - 1)]
  simp [hmask]



/-- C2: for every frame with a valid opcode, FIN/RSV bits in {0,1},
MASK = 0 and `PayloadLen` equal to the payload length (necessarily below
2^64, the range of the uint64 length field), decoding the bytes produced
by `Frame.ToBytes` with `mask=false` under any `maxPayloadLen` at least
the payload length succeeds and returns a frame equal to the original on
FIN, RSV1, RSV2, RSV3, Opcode, MASK, PayloadLen, and PayloadData (the
decoder leaves `MaskingKey` at zero). -/
theorem frame_roundtrip_unmasked (g : Nat → Nat) (f : Frame) (maxP : Nat)
    (hop : f.Opcode = OpcodeContinue ∨ f.Opcode = OpcodeText ∨ f.Opcode = OpcodeBinary ∨
      f.Opcode = OpcodeClose ∨ f.Opcode = OpcodePing ∨ f.Opcode = OpcodePong)
    (hfin : f.FIN ≤ 1) (hr1 : f.RSV1 ≤ 1) (hr2 : f.RSV2 ≤ 1) (hr3 : f.RSV3 ≤ 1)
    (hmask : f.MASK = 0)
    (hlen : f.PayloadLen = f.PayloadData.length)
    (hlen64 : f.PayloadData.length < 2 ^ 64)
    (hmax : f.PayloadData.length ≤ maxP) :
    ∃ bs, Frame.ToBytes g f false = some bs ∧
      Frame.FromBufReader [bs] maxP = .ok ({f with MaskingKey := 0}, []) := by
  have hchk : CheckOpcode f.Opcode = true := by
    rcases hop with h | h | h | h | h | h <;>
      simp [CheckOpcode, h, OpcodeContinue, OpcodeText, OpcodeBinary, OpcodeClose,
        OpcodePing, OpcodePong]
  obtain ⟨e1f, e2f, e3f, e4f, e5f, e6f⟩ :=
    byte0_fields f.FIN f.RSV1 f.RSV2 f.RSV3 f.Opcode hfin hr1 hr2 hr3 hchk
  have hframe : ({f with MaskingKey := 0} : Frame) =
      ⟨frameByte0 f >>> 7, ((frameByte0 f <<< 1) % 256) >>> 7,
        ((frameByte0 f <<< 2) % 256) >>> 7, ((frameByte0 f <<< 3) % 256) >>> 7,
        frameByte0 f &&& 0xF, 0, f.PayloadData.length, 0, f.PayloadData⟩ := by
    simp only [Frame.mk.injEq]
    exact ⟨e1f.symm, e2f.symm, e3f.symm, e4f.symm, e5f.symm, hmask, hlen, trivial, trivial⟩
  by_cases h125 : f.PayloadData.length ≤ 125
  · by_cases h0 : f.PayloadData.length = 0
    · have hpd : f.PayloadData = [] := List.length_eq_zero.mp h0
      refine ⟨_, toBytes_small g f hmask h125, ?_⟩
      rw [hframe, hpd]
      simp only [List.length_nil]
      exact fromBufReader_zero_len (frameByte0 f) [] maxP e6f
    · refine ⟨_, toBytes_small g f hmask h125, ?_⟩
      rw [hframe]
      exact fromBufReader_small (frameByte0 f) f.PayloadData maxP e6f (by omega) h125 hmax
  · by_cases h16 : f.PayloadData.length ≤ 65535
    · refine ⟨_, toBytes_ext16 g f hmask (by omega) h16, ?_⟩
      rw [hframe]
      exact fromBufReader_ext16 (frameByte0 f) _ _ f.PayloadData maxP e6f
        (recon16 f.PayloadData.length (by omega)) (by omega) hmax
    · refine ⟨_, toBytes_ext64 g f hmask (by omega), ?_⟩
      rw [hframe]
      exact fromBufReader_ext64 (frameByte0 f) _ _ _ _ _ _ _ _ f.PayloadData maxP e6f
        (recon64 f.PayloadData.length hlen64) (by omega) hmax



/-- C2 witness: the round-trip theorem applied to a concrete Text frame
with payload "hi", all hypotheses discharged by computation. -/
theorem frame_roundtrip_unmasked_witness :
    ∃ bs, Frame.ToBytes (fun _ => 0) ⟨1, 0, 0, 0, 1, 0, 2, 0, [104, 105]⟩ false = some bs ∧
      Frame.FromBufReader [bs] 100 = .ok (⟨1, 0, 0, 0, 1, 0, 2, 0, [104, 105]⟩, []) :=
  frame_roundtrip_unmasked (fun _ => 0) ⟨1, 0, 0, 0, 1, 0, 2, 0, [104, 105]⟩ 100
    (by decide) (by decide) (by decide) (by decide) (by decide) (by decide)
    (by decide) (by decide) (by decide)

/-- C6 (amended): the payload read loops on reads of up to 512 bytes and
succeeds exactly when the running byte total hits the decoded payload
length: on success exactly that many bytes are consumed (the returned
payload is the stream's prefix of that length and the remainder is
handed back); when the stream holds fewer bytes than the length, the
read fails with the payload-data error; but a read that overshoots the
remaining count also fails after consuming the surplus (see the
counterexample), so "fails only when the stream ends early" does not
hold.  When the 7-bit length field is zero, no payload bytes are read
and the stream past the header is untouched. -/
theorem frame_payload_read_amended :
    (∀ s size out s2, ReadBytesAsMath s size = some (out, s2) →
      out.length = size ∧ flattenStream s = out ++ flattenStream s2) ∧
    (∀ s size, (flattenStream s).length < size → ReadBytesAsMath s size = none) ∧
    (∀ b0 rest maxP, CheckOpcode (b0 &&& 0xF) = true →
      Frame.FromBufReader ([b0, 0] :: rest) maxP =
        .ok (⟨b0 >>> 7, ((b0 <<< 1) % 256) >>> 7, ((b0 <<< 2) % 256) >>> 7,
          ((b0 <<< 3) % 256) >>> 7, b0 &&& 0xF, 0, 0, 0, []⟩, rest)) :=
  ⟨readBytesAsMath_sound, readBytesAsMath_short, fromBufReader_zero_len⟩

/-- C6 witness: the three amended conjuncts applied at concrete inputs
with their hypotheses discharged by computation. -/
theorem frame_payload_read_amended_witness :
    ([65, 66].length = 2 ∧ flattenStream [[65, 66]] = [65, 66] ++ flattenStream []) ∧
    ReadBytesAsMath [[65]] 2 = none ∧
    Frame.FromBufReader [[129, 0], [7]] 100 = .ok (⟨1, 0, 0, 0, 1, 0, 0, 0, []⟩, [[7]]) :=
  ⟨frame_payload_read_amended.1 [[65, 66]] 2 [65, 66] [] rfl,
    frame_payload_read_amended.2.1 [[65]] 2 (by decide),
    frame_payload_read_amended.2.2 129 [[7]] 100 (by decide)⟩

end Kiwi
